import Mathlib

/-!
Shallow embedding of the Basic-Web-Application-Firewall repository
(`waf.py` and `app.py`).

Strings are modelled as `List Char`.  Python's `re.search` with
`re.IGNORECASE` compares characters after lower-casing; for the ASCII
patterns of this repository this is `Char.toLower` equality.  The two
compiled patterns of `waf.py` are embedded by their matching semantics:

* `SQL_INJECTION_PATTERN = r"(\bselect\b|\binsert\b|\bunion\b|\b--\b|\b;\b|\bdrop\b)"`
  — an alternation matches somewhere iff one alternative matches at some
  position; `\bX\b` matches at `i` iff `X` matches case-insensitively at
  `i` and a word boundary holds at `i` and at `i + |X|`.
* `XSS_PATTERN = r"<script.*?>.*?</script>"` — no `re.DOTALL`, so `.`
  matches every character except `'\n'`; the quantifiers are lazy, and
  `re.search` returns the leftmost match, with each lazy gap as short as
  completion allows.
-/

/-- Python `\w` on the ASCII range: letters, digits and underscore.
(Python's `re` on `str` also counts non-ASCII word characters; every
string analysed in this development is ASCII, where the two notions
coincide.) -/
def isWordChar (c : Char) : Bool := c.isAlphanum || c == '_'

/-- Case-insensitive match of a pattern against a prefix of the text,
as Python's `re.IGNORECASE` does for ASCII patterns. -/
def matchCI : List Char → List Char → Bool
  | [], _ => true
  | _ :: _, [] => false
  | p :: ps, c :: cs => (c.toLower == p.toLower) && matchCI ps cs

/-- Case-sensitive (literal) match of a pattern against a prefix of the text. -/
def matchLit : List Char → List Char → Bool
  | [], _ => true
  | _ :: _, [] => false
  | p :: ps, c :: cs => (c == p) && matchLit ps cs

/-- The pattern occurs case-insensitively at position `i` of `s`. -/
def occursCIAt (pat s : List Char) (i : Nat) : Bool := matchCI pat (s.drop i)

/-- The pattern occurs literally at position `i` of `s`. -/
def occursLitAt (pat s : List Char) (i : Nat) : Bool := matchLit pat (s.drop i)

/-- `s` contains the pattern as a literal substring. -/
def containsSeq (pat s : List Char) : Bool :=
  (List.range (s.length + 1)).any (fun i => occursLitAt pat s i)

/-- Python's `\b` word-boundary assertion at position `i`: the word-ness of
the character before `i` differs from the word-ness of the character at `i`
(positions outside the string count as non-word). -/
def boundaryAt (s : List Char) (i : Nat) : Bool :=
  (if i = 0 then false else isWordChar (s.getD (i - 1) ' ')) != isWordChar (s.getD i ' ')

/-- `s` contains an occurrence of the pattern that is delimited by word
boundaries on both sides, matched case-insensitively: the semantics of
`\bpat\b` under `re.search` with `re.IGNORECASE`. -/
def containsWB (pat s : List Char) : Bool :=
  (List.range (s.length + 1)).any
    (fun i => occursCIAt pat s i && boundaryAt s i && boundaryAt s (i + pat.length))

/-- `waf.py`, `detect_sql_injection`: `re.search` of
`(\bselect\b|\binsert\b|\bunion\b|\b--\b|\b;\b|\bdrop\b)` with `re.IGNORECASE`
is truthy iff some alternative matches at some position. -/
def detect_sql_injection (s : List Char) : Bool :=
  containsWB ("select".toList) s || containsWB ("insert".toList) s ||
  containsWB ("union".toList) s || containsWB ("--".toList) s ||
  containsWB (";".toList) s || containsWB ("drop".toList) s

/-- The literal sub-pattern `<script` of `XSS_PATTERN`. -/
def openTag : List Char := "<script".toList

/-- The literal sub-pattern `</script>` of `XSS_PATTERN`. -/
def closeTag : List Char := "</script>".toList

/-- The first position `j ≥ k` holding `'>'`, provided no `'\n'` occurs in
`[k, j)`: where the lazy gap `.*?` (which cannot cross `'\n'`) followed by
`>` can first stop.  If a `'\n'` is reached first, the gap cannot be closed
from `k` at all. -/
def findGtNoNl (s : List Char) (k : Nat) : Option Nat :=
  match (List.range' k (s.length - k)).find?
      (fun t => (s.getD t ' ' == '>') || (s.getD t ' ' == '\n')) with
  | some t => if s.getD t ' ' == '>' then some t else none
  | none => none

/-- The first position `m ≥ k` where `</script>` occurs case-insensitively,
provided no `'\n'` occurs in `[k, m)`; returns the end position `m + 9` of
the whole match.  This is where the second lazy gap can first stop. -/
def findCloseNoNl (s : List Char) (k : Nat) : Option Nat :=
  match (List.range' k (s.length + 1 - k)).find?
      (fun m => occursCIAt closeTag s m || (s.getD m ' ' == '\n')) with
  | some m => if occursCIAt closeTag s m then some (m + 9) else none
  | none => none

/-- Attempt to match `XSS_PATTERN` starting at position `i`: `<script`
must occur at `i`, then the first reachable `'>'`, then the first reachable
`</script>`.  Returns the end position of the match.  (If the first
reachable `'>'` admits no completion, no later `'>'` does either, because
every candidate closing tag lies on the same `'\n'`-free stretch; so taking
the first `'>'` is faithful to the backtracking engine.) -/
def xssFrom (s : List Char) (i : Nat) : Option Nat :=
  if occursCIAt openTag s i then
    match findGtNoNl s (i + 7) with
    | some j => findCloseNoNl s (j + 1)
    | none => none
  else none

/-- The span `(start, end)` returned by `re.search(XSS_PATTERN, s, re.I)`:
the leftmost start position that admits a match, with lazy-minimal end. -/
def xssMatchSpan (s : List Char) : Option (Nat × Nat) :=
  (List.range (s.length + 1)).findSome? (fun i => (xssFrom s i).map (fun e => (i, e)))

/-- `waf.py`, `detect_xss`: truthiness of `re.search(XSS_PATTERN, s, re.IGNORECASE)`. -/
def detect_xss (s : List Char) : Bool := (xssMatchSpan s).isSome

/-- Modelled from the spec (for comparison only, not from the source): the
span the spec claims the xss detector matches — from the first `<script`
to the last `</script>` following it ("greedy span matching"). -/
def xssGreedySpanSpec (s : List Char) : Option (Nat × Nat) :=
  match (List.range (s.length + 1)).find? (fun i => occursCIAt openTag s i) with
  | none => none
  | some i =>
    match ((List.range (s.length + 1)).filter
        (fun m => (i + 7 ≤ m) && occursCIAt closeTag s m)).getLast? with
    | none => none
    | some m => some (i, m + 9)

/-- Attack classes recognised by `check_security` in `app.py`. -/
inductive AttackClass
  | sqlInjection
  | xss
  deriving DecidableEq

/-- Outcome of the security gate: either the request proceeds, or it is
aborted with an HTTP status, a description naming the attack class, and the
offending field value. -/
inductive Outcome
  | allowed
  | rejected (status : Nat) (cls : AttackClass) (offending : List Char)
  deriving DecidableEq

/-- One record appended by `logging.info` on a detection: the client
address, the detected class and the offending value interpolated into the
message. -/
structure LogRecord where
  client : List Char
  cls : AttackClass
  value : List Char
  deriving DecidableEq

/-- `app.py`, `check_security`: iterate over the form's `(key, value)`
pairs in order; on the first value for which `detect_sql_injection` is
true, log and abort with 400 naming SQL injection; otherwise, if
`detect_xss` is true, log and abort with 400 naming XSS; if no field
matches, fall through and let the request proceed. -/
def check_security (addr : List Char) :
    List (List Char × List Char) → Outcome × List LogRecord
  | [] => (Outcome.allowed, [])
  | (_, v) :: rest =>
    if detect_sql_injection v then
      (Outcome.rejected 400 AttackClass.sqlInjection v,
       [{ client := addr, cls := AttackClass.sqlInjection, value := v }])
    else if detect_xss v then
      (Outcome.rejected 400 AttackClass.xss v,
       [{ client := addr, cls := AttackClass.xss, value := v }])
    else
      check_security addr rest

/-- A past request at time `p` still counts against a request arriving at
time `t`: it lies in the rolling window `(t - 60, t]`. -/
def recentOf (t p : Nat) : Bool := p ≤ t && t < p + 60

/-- Timestamp `t` lies in the fixed 60-second window starting at `w`. -/
def inWindow (w t : Nat) : Bool := w ≤ t && t < w + 60

/-- Modelled from the spec: the rate limiter itself lives in the external
`flask_limiter` package, not in this repository's sources; `app.py` only
declares `@limiter.limit("5 per minute")` keyed by client address.  Per
the spec, a request at time `t` is within quota iff fewer than 5 earlier
requests from the same client fall in the rolling 60-second window
`(t - 60, t]`. -/
def rateLimitOk (past : List Nat) (t : Nat) : Bool :=
  past.countP (recentOf t) < 5

/-- Verdict of the rate-limiting gate for one request. -/
inductive RateVerdict
  | allowed
  | quotaExceeded
  deriving DecidableEq

/-- Modelled from the spec: HTTP status attached to a rate-limit verdict —
`quotaExceeded` is surfaced as HTTP 429, an allowed request carries none. -/
def verdictStatus : RateVerdict → Option Nat
  | RateVerdict.allowed => none
  | RateVerdict.quotaExceeded => some 429

/-- Modelled from the spec: run one client's requests, each a
`(timestamp, content)` pair, through the rolling-window limiter in arrival
order.  The decision reads only the timestamps — never the content. -/
def rateRun (past : List Nat) :
    List (Nat × List Char) → List ((Nat × List Char) × RateVerdict)
  | [] => []
  | r :: rest =>
    (r, if rateLimitOk past r.1 then RateVerdict.allowed else RateVerdict.quotaExceeded) ::
      rateRun (past ++ [r.1]) rest

/-- The request was allowed and its timestamp lies in the 60-second
window starting at `w`. -/
def inWindowAllowed (w : Nat) (q : (Nat × List Char) × RateVerdict) : Bool :=
  inWindow w q.1.1 && (q.2 == RateVerdict.allowed)

/-- Number of allowed requests whose timestamp lies in the 60-second
window starting at `w`. -/
def allowedInWindow (out : List ((Nat × List Char) × RateVerdict)) (w : Nat) : Nat :=
  out.countP (inWindowAllowed w)

-- temporary sanity checks against the observed Python behaviour
example : detect_sql_injection ("--".toList) = false := by decide
example : detect_sql_injection (" ; ".toList) = false := by decide
example : detect_sql_injection ("a--b".toList) = true := by decide
example : detect_sql_injection ("a;b".toList) = true := by decide
example : detect_sql_injection ("abc--".toList) = false := by decide
example : detect_sql_injection ("hello world".toList) = false := by decide
example : detect_sql_injection ("SELECT * FROM users; DROP TABLE users;".toList) = true := by decide
example : detect_xss ("<SCRIPT>alert(1)</SCRIPT>".toList) = true := by decide
example : xssMatchSpan ("<SCRIPT>alert(1)</SCRIPT>".toList) = some (0, 25) := by decide
example : detect_xss (("<script>a".toList ++ '\n' :: "b</script>".toList)) = false := by decide
example : xssMatchSpan ("<script>a</script>b</script>".toList) = some (0, 18) := by decide
example : xssMatchSpan (("<script>".toList ++ '\n' :: "<script>x</script>".toList)) = some (9, 27) := by decide

/-! ### Character-level helper lemmas -/

theorem toNat_ofNat_valid (n : Nat) (h : n.isValidChar) : (Char.ofNat n).toNat = n := by
  simp only [Char.ofNat]
  rw [dif_pos h]
  rfl

/-- `Char.toLower` fixes every character below `'A'` (code 65). -/
theorem toLower_eq_self_of_low (c : Char) (h : c.toNat < 65) : c.toLower = c := by
  simp only [Char.toLower]
  rw [if_neg]
  omega

/-- If lower-casing `c` yields a character below `'A'` (code 65), then `c`
already was that character: lower-casing only produces lowercase letters. -/
theorem eq_of_toLower_eq_low (c d : Char) (hd : d.toNat < 65) (h : c.toLower = d) : c = d := by
  simp only [Char.toLower] at h
  split at h
  · have hv : (c.toNat + 32).isValidChar := by
      refine Or.inl ?_
      omega
    have ht := toNat_ofNat_valid (c.toNat + 32) hv
    rw [h] at ht
    omega
  · exact h

/-! ### Pattern-matching helper lemmas -/

theorem matchCI_append_right (p w z : List Char) (h : matchCI p w = true) :
    matchCI p (w ++ z) = true := by
  induction p generalizing w with
  | nil => rfl
  | cons x xs ih =>
    cases w with
    | nil => simp [matchCI] at h
    | cons c cs =>
      simp only [matchCI, Bool.and_eq_true] at h ⊢
      exact ⟨h.1, ih cs h.2⟩

theorem matchCI_append2 (p q w z : List Char) (h : matchCI p w = true)
    (hl : w.length = p.length) (h2 : matchCI q z = true) :
    matchCI (p ++ q) (w ++ z) = true := by
  induction p generalizing w with
  | nil =>
    have : w = [] := List.eq_nil_of_length_eq_zero hl
    subst this
    simpa using h2
  | cons x xs ih =>
    cases w with
    | nil => simp [matchCI] at h
    | cons c cs =>
      simp only [matchCI, Bool.and_eq_true] at h
      simp only [List.cons_append, matchCI, Bool.and_eq_true]
      refine ⟨h.1, ih cs h.2 ?_⟩
      simpa using hl

theorem matchCI_cons_elim {p : Char} {ps l : List Char}
    (h : matchCI (p :: ps) l = true) :
    ∃ c cs, l = c :: cs ∧ c.toLower = p.toLower ∧ matchCI ps cs = true := by
  cases l with
  | nil => simp [matchCI] at h
  | cons c cs =>
    simp only [matchCI, Bool.and_eq_true, beq_iff_eq] at h
    exact ⟨c, cs, rfl, h.1, h.2⟩

/-- A case-insensitive match of a pattern built only from characters below
code 65 (punctuation such as `-` and `;`) is already a literal match. -/
theorem matchLit_of_matchCI_low (pat : List Char) (hp : ∀ c ∈ pat, c.toNat < 65) :
    ∀ l, matchCI pat l = true → matchLit pat l = true := by
  induction pat with
  | nil => intro l _; rfl
  | cons x xs ih =>
    intro l h
    obtain ⟨c, cs, rfl, hc, hrest⟩ := matchCI_cons_elim h
    have hx : x.toNat < 65 := hp x (by simp)
    rw [toLower_eq_self_of_low x hx] at hc
    have hcx : c = x := eq_of_toLower_eq_low c x hx hc
    simp only [matchLit, Bool.and_eq_true, beq_iff_eq]
    exact ⟨hcx, ih (fun c hc => hp c (by simp [hc])) cs hrest⟩

/-! ### List indexing helper lemmas -/

theorem getD_append_len (a l : List Char) (k : Nat) (d : Char) :
    (a ++ l).getD (a.length + k) d = l.getD k d := by
  induction a with
  | nil => simp
  | cons x xs ih =>
    simpa [List.cons_append, Nat.succ_add] using ih

theorem getD_append_lt (a l : List Char) (k : Nat) (d : Char) (h : k < a.length) :
    (a ++ l).getD k d = a.getD k d := by
  induction a generalizing k with
  | nil => simp at h
  | cons x xs ih =>
    cases k with
    | zero => simp
    | succ k' =>
      simp only [List.cons_append, List.getD_cons_succ]
      exact ih k' (by simpa using h)

theorem drop_append_len (a l : List Char) (k : Nat) :
    (a ++ l).drop (a.length + k) = l.drop k := by
  induction a with
  | nil => simp
  | cons x xs ih =>
    simp [List.cons_append, Nat.succ_add, ih]

theorem drop_eq_getD_cons (s : List Char) (t : Nat) (h : t < s.length) (d : Char) :
    s.drop t = s.getD t d :: s.drop (t + 1) := by
  induction s generalizing t with
  | nil => simp at h
  | cons x xs ih =>
    cases t with
    | zero => simp
    | succ t' =>
      simp only [List.drop_succ_cons, List.getD_cons_succ]
      exact ih t' (by simpa using h)

theorem getD_mem (l : List Char) (n : Nat) (h : n < l.length) (d : Char) :
    l.getD n d ∈ l := by
  induction l generalizing n with
  | nil => simp at h
  | cons x xs ih =>
    cases n with
    | zero => simp
    | succ n' =>
      simp only [List.getD_cons_succ]
      exact List.mem_cons_of_mem x (ih n' (by simpa using h))

/-! ### `find?` / `findSome?` over ranges -/

theorem find?_range'_first (p : Nat → Bool) :
    ∀ (n k m : Nat), k ≤ m → m < k + n → p m = true →
      (∀ t, k ≤ t → t < m → p t = false) → (List.range' k n).find? p = some m := by
  intro n
  induction n with
  | zero => intro k m h1 h2 _ _; omega
  | succ n' ih =>
    intro k m h1 h2 hm hbelow
    rw [List.range'_succ]
    by_cases hk : k = m
    · subst hk
      exact List.find?_cons_of_pos _ hm
    · have hklt : k < m := by omega
      rw [List.find?_cons_of_neg _ (by simp [hbelow k (Nat.le_refl k) hklt])]
      exact ih (k + 1) m (by omega) (by omega) hm (fun t ht1 ht2 => hbelow t (by omega) ht2)

theorem find?_range'_hit (p : Nat → Bool) :
    ∀ (n k m : Nat), k ≤ m → m < k + n → p m = true →
      ∃ j, (List.range' k n).find? p = some j ∧ k ≤ j ∧ j ≤ m ∧ p j = true := by
  intro n
  induction n with
  | zero => intro k m h1 h2 _; omega
  | succ n' ih =>
    intro k m h1 h2 hm
    rw [List.range'_succ]
    by_cases hk : p k = true
    · exact ⟨k, List.find?_cons_of_pos _ hk, Nat.le_refl k, h1, hk⟩
    · have hkm : k ≠ m := fun h => hk (h ▸ hm)
      rw [List.find?_cons_of_neg _ (by simp [hk])]
      obtain ⟨j, hj, hj1, hj2, hj3⟩ := ih (k + 1) m (by omega) (by omega) hm
      exact ⟨j, hj, by omega, hj2, hj3⟩

theorem findSome?_isSome_of_mem {α β : Type} (f : α → Option β) (a : α) :
    ∀ (l : List α), a ∈ l → (f a).isSome = true → (l.findSome? f).isSome = true := by
  intro l
  induction l with
  | nil => intro h _; simp at h
  | cons x xs ih =>
    intro hmem hfa
    rw [List.findSome?_cons]
    cases hx : f x with
    | some b => simp
    | none =>
      rcases List.mem_cons.mp hmem with h | h
      · subst h; rw [hx] at hfa; simp at hfa
      · exact ih h hfa

/-! ### Detector-level helper lemmas -/

theorem containsWB_intro (pat s : List Char) (i : Nat) (hi : i ≤ s.length)
    (h1 : occursCIAt pat s i = true) (h2 : boundaryAt s i = true)
    (h3 : boundaryAt s (i + pat.length) = true) : containsWB pat s = true := by
  unfold containsWB
  rw [List.any_eq_true]
  exact ⟨i, List.mem_range.mpr (by omega), by simp [h1, h2, h3]⟩

/-- A word-boundary-delimited case-insensitive occurrence of a pattern made
of characters below code 65 is in particular a literal substring occurrence. -/
theorem containsSeq_of_containsWB_low (pat s : List Char)
    (hp : ∀ c ∈ pat, c.toNat < 65) (h : containsWB pat s = true) :
    containsSeq pat s = true := by
  unfold containsWB at h
  rw [List.any_eq_true] at h
  obtain ⟨i, hi, hcond⟩ := h
  simp only [Bool.and_eq_true] at hcond
  unfold containsSeq
  rw [List.any_eq_true]
  refine ⟨i, hi, ?_⟩
  unfold occursLitAt
  exact matchLit_of_matchCI_low pat hp _ hcond.1.1

theorem findGtNoNl_here (s : List Char) (k : Nat) (hk : k < s.length)
    (hc : s.getD k ' ' = '>') : findGtNoNl s k = some k := by
  have hc' : (s.getD k ' ' == '>') = true := by rw [hc]; rfl
  unfold findGtNoNl
  rw [find?_range'_first _ (s.length - k) k k (Nat.le_refl k) (by omega)
    (by simp only [hc', Bool.true_or]) (by intro t h1 h2; omega)]
  simp only [hc', if_true]

theorem findCloseNoNl_isSome (s : List Char) (k m0 : Nat) (hk : k ≤ m0)
    (hm0 : m0 ≤ s.length) (hocc : occursCIAt closeTag s m0 = true)
    (hnl : ∀ t, k ≤ t → t ≤ m0 → ¬s.getD t ' ' = '\n') :
    ∃ e, findCloseNoNl s k = some e := by
  unfold findCloseNoNl
  obtain ⟨j, hj, hj1, hj2, hj3⟩ :=
    find?_range'_hit (fun m => occursCIAt closeTag s m || (s.getD m ' ' == '\n'))
      (s.length + 1 - k) k m0 hk (by omega) (by simp [hocc])
  rw [hj]
  have hoccj : occursCIAt closeTag s j = true := by
    rcases Bool.or_eq_true_iff.mp hj3 with h | h
    · exact h
    · exact absurd (beq_iff_eq.mp h) (hnl j hj1 hj2)
  simp only [hoccj, if_true]
  exact ⟨j + 9, rfl⟩

theorem findCloseNoNl_first (s : List Char) (k m0 : Nat) (hk : k ≤ m0)
    (hm0 : m0 ≤ s.length) (hocc : occursCIAt closeTag s m0 = true)
    (hbelow : ∀ t, k ≤ t → t < m0 →
      occursCIAt closeTag s t = false ∧ ¬s.getD t ' ' = '\n') :
    findCloseNoNl s k = some (m0 + 9) := by
  unfold findCloseNoNl
  rw [find?_range'_first _ (s.length + 1 - k) k m0 hk (by omega)
    (by simp only [hocc, Bool.true_or])
    (by
      intro t h1 h2
      obtain ⟨hA, hB⟩ := hbelow t h1 h2
      simp only [hA, Bool.false_or]
      exact beq_eq_false_iff_ne.mpr hB)]
  simp only [hocc, if_true]

/-! ### Claim theorems -/

/-- C10: on the empty string both detectors return false, and a request
with zero scannable form fields is never rejected by the signature gate. -/
theorem empty_input_never_rejected :
    detect_sql_injection [] = false ∧ detect_xss [] = false ∧
      ∀ addr : List Char, check_security addr [] = (Outcome.allowed, []) :=
  ⟨by decide, by decide, fun _ => rfl⟩

/-- C2 counterexample: the string `"--"` contains `--`, and `" ; "`
contains `;` as an isolated token, yet `detect_sql_injection` returns
false on both — `\b--\b` and `\b;\b` require flanking word characters. -/
theorem sql_wb_punct_refuted :
    containsSeq ("--".toList) ("--".toList) = true ∧
    detect_sql_injection ("--".toList) = false ∧
    containsSeq (";".toList) (" ; ".toList) = true ∧
    detect_sql_injection (" ; ".toList) = false := by decide

/-- C2 amended: `detect_sql_injection` returns true on every string that
contains `--`, or `;`, immediately preceded and followed by a word
character (letter, digit or underscore). -/
theorem sql_flanked_punct_detected (a b : List Char) (c1 c2 : Char)
    (h1 : isWordChar c1 = true) (h2 : isWordChar c2 = true) :
    detect_sql_injection (a ++ c1 :: '-' :: '-' :: c2 :: b) = true ∧
    detect_sql_injection (a ++ c1 :: ';' :: c2 :: b) = true := by
  have epat2 : "--".toList = ['-', '-'] := rfl
  have epat1 : ";".toList = [';'] := rfl
  constructor
  · have hWB : containsWB ("--".toList) (a ++ c1 :: '-' :: '-' :: c2 :: b) = true := by
      apply containsWB_intro _ _ (a.length + 1)
      · simp only [List.length_append, List.length_cons]
        omega
      · unfold occursCIAt
        rw [show a.length + 1 = a.length + 1 from rfl,
          drop_append_len a (c1 :: '-' :: '-' :: c2 :: b) 1]
        rw [epat2]
        simp [matchCI]
      · unfold boundaryAt
        rw [if_neg (by omega)]
        have g1 : (a ++ c1 :: '-' :: '-' :: c2 :: b).getD (a.length + 1 - 1) ' ' = c1 := by
          have e : a.length + 1 - 1 = a.length + 0 := by omega
          rw [e, getD_append_len]
          rfl
        have g2 : (a ++ c1 :: '-' :: '-' :: c2 :: b).getD (a.length + 1) ' ' = '-' := by
          rw [getD_append_len]
          rfl
        rw [g1, g2, h1]
        decide
      · unfold boundaryAt
        rw [epat2]
        have e3 : a.length + 1 + ([ '-', '-'] : List Char).length = a.length + 3 := rfl
        rw [e3, if_neg (by omega)]
        have g1 : (a ++ c1 :: '-' :: '-' :: c2 :: b).getD (a.length + 3 - 1) ' ' = '-' := by
          have e : a.length + 3 - 1 = a.length + 2 := by omega
          rw [e, getD_append_len]
          rfl
        have g2 : (a ++ c1 :: '-' :: '-' :: c2 :: b).getD (a.length + 3) ' ' = c2 := by
          rw [getD_append_len]
          rfl
        rw [g1, g2, h2]
        decide
    unfold detect_sql_injection
    rw [hWB]
    simp
  · have hWB : containsWB (";".toList) (a ++ c1 :: ';' :: c2 :: b) = true := by
      apply containsWB_intro _ _ (a.length + 1)
      · simp only [List.length_append, List.length_cons]
        omega
      · unfold occursCIAt
        rw [drop_append_len a (c1 :: ';' :: c2 :: b) 1]
        rw [epat1]
        simp [matchCI]
      · unfold boundaryAt
        rw [if_neg (by omega)]
        have g1 : (a ++ c1 :: ';' :: c2 :: b).getD (a.length + 1 - 1) ' ' = c1 := by
          have e : a.length + 1 - 1 = a.length + 0 := by omega
          rw [e, getD_append_len]
          rfl
        have g2 : (a ++ c1 :: ';' :: c2 :: b).getD (a.length + 1) ' ' = ';' := by
          rw [getD_append_len]
          rfl
        rw [g1, g2, h1]
        decide
      · unfold boundaryAt
        rw [epat1]
        have e3 : a.length + 1 + ([';'] : List Char).length = a.length + 2 := rfl
        rw [e3, if_neg (by omega)]
        have g1 : (a ++ c1 :: ';' :: c2 :: b).getD (a.length + 2 - 1) ' ' = ';' := by
          have e : a.length + 2 - 1 = a.length + 1 := by omega
          rw [e, getD_append_len]
          rfl
        have g2 : (a ++ c1 :: ';' :: c2 :: b).getD (a.length + 2) ' ' = c2 := by
          rw [getD_append_len]
          rfl
        rw [g1, g2, h2]
        decide
    unfold detect_sql_injection
    rw [hWB]
    simp

/-- C2 witness: the amended statement at concrete inputs `a--b` and `a;b`. -/
theorem sql_flanked_punct_witness :
    isWordChar 'a' = true ∧
    detect_sql_injection ("a--b".toList) = true ∧
    detect_sql_injection ("a;b".toList) = true :=
  ⟨by decide,
   (sql_flanked_punct_detected [] [] 'a' 'b' (by decide) (by decide)).1,
   (sql_flanked_punct_detected [] [] 'a' 'b' (by decide) (by decide)).2⟩

/-- C6: a string with no word-boundary-delimited occurrence of any SQL
keyword, no occurrence of `--` at all, and no word-boundary-delimited `;`
is not flagged by `detect_sql_injection`. -/
theorem sql_clean_not_detected (s : List Char)
    (hsel : containsWB ("select".toList) s = false)
    (hins : containsWB ("insert".toList) s = false)
    (huni : containsWB ("union".toList) s = false)
    (hdrop : containsWB ("drop".toList) s = false)
    (hdash : containsSeq ("--".toList) s = false)
    (hsemi : containsWB (";".toList) s = false) :
    detect_sql_injection s = false := by
  have hdash' : containsWB ("--".toList) s = false := by
    cases h : containsWB ("--".toList) s with
    | false => rfl
    | true =>
      have := containsSeq_of_containsWB_low ("--".toList) s (by decide) h
      rw [hdash] at this
      cases this
  unfold detect_sql_injection
  rw [hsel, hins, huni, hdrop, hdash', hsemi]
  rfl

/-- C6 witness: `"hello world"` satisfies the hypotheses and is clean. -/
theorem sql_clean_witness :
    containsSeq ("--".toList) ("hello world".toList) = false ∧
    detect_sql_injection ("hello world".toList) = false :=
  ⟨by decide,
   sql_clean_not_detected ("hello world".toList) (by decide) (by decide) (by decide)
     (by decide) (by decide) (by decide)⟩

/-- C5: any string containing one of the keywords `select`, `insert`,
`union`, `drop` as a case-insensitive word-boundary-delimited token is
flagged by `detect_sql_injection`, and a request carrying such a string as
a field value is rejected by the gate with status 400 and class
`sql_injection`. -/
theorem sql_keyword_detected (s kw : List Char) (i : Nat)
    (hkw : kw = "select".toList ∨ kw = "insert".toList ∨
           kw = "union".toList ∨ kw = "drop".toList)
    (hi : i ≤ s.length)
    (hocc : occursCIAt kw s i = true)
    (hb1 : boundaryAt s i = true)
    (hb2 : boundaryAt s (i + kw.length) = true) :
    detect_sql_injection s = true ∧
      ∀ (addr k : List Char) (rest : List (List Char × List Char)),
        (check_security addr ((k, s) :: rest)).1 =
          Outcome.rejected 400 AttackClass.sqlInjection s := by
  have hWB : containsWB kw s = true := containsWB_intro kw s i hi hocc hb1 hb2
  have hdet : detect_sql_injection s = true := by
    unfold detect_sql_injection
    rcases hkw with h | h | h | h <;> rw [h] at hWB <;> rw [hWB] <;> simp
  refine ⟨hdet, ?_⟩
  intro addr k rest
  simp [check_security, hdet]

/-- C5 witness: the spec's example `"SELECT * FROM users; DROP TABLE users;"`. -/
theorem sql_keyword_witness :
    detect_sql_injection ("SELECT * FROM users; DROP TABLE users;".toList) = true ∧
    (check_security ("203.0.113.7".toList)
        [("user_input".toList, "SELECT * FROM users; DROP TABLE users;".toList)]).1 =
      Outcome.rejected 400 AttackClass.sqlInjection
        ("SELECT * FROM users; DROP TABLE users;".toList) := by
  have h := sql_keyword_detected ("SELECT * FROM users; DROP TABLE users;".toList)
    ("select".toList) 0 (Or.inl rfl) (by decide) (by decide) (by decide) (by decide)
  exact ⟨h.1, h.2 ("203.0.113.7".toList) ("user_input".toList) []⟩

/-- C1: the gate rejects a request iff at least one field value matches at
least one signature class; and when no field matches, the outcome is
`allowed` and nothing is logged. -/
theorem gate_rejects_iff_some_field_matches (addr : List Char)
    (form : List (List Char × List Char)) :
    ((check_security addr form).1 ≠ Outcome.allowed ↔
      ∃ kv ∈ form, detect_sql_injection kv.2 = true ∨ detect_xss kv.2 = true) ∧
    ((∀ kv ∈ form, detect_sql_injection kv.2 = false ∧ detect_xss kv.2 = false) →
      check_security addr form = (Outcome.allowed, [])) := by
  induction form with
  | nil => simp [check_security]
  | cons kv rest ih =>
    obtain ⟨k, v⟩ := kv
    by_cases hs : detect_sql_injection v = true
    · constructor
      · constructor
        · intro _
          exact ⟨(k, v), by simp, Or.inl hs⟩
        · intro _
          simp [check_security, hs]
      · intro h
        have := (h (k, v) (by simp)).1
        rw [hs] at this
        cases this
    · have hs' : detect_sql_injection v = false := by simpa using hs
      by_cases hx : detect_xss v = true
      · constructor
        · constructor
          · intro _
            exact ⟨(k, v), by simp, Or.inr hx⟩
          · intro _
            simp [check_security, hs', hx]
        · intro h
          have := (h (k, v) (by simp)).2
          rw [hx] at this
          cases this
      · have hx' : detect_xss v = false := by simpa using hx
        have hcheck : check_security addr ((k, v) :: rest) = check_security addr rest := by
          simp [check_security, hs', hx']
        constructor
        · rw [hcheck, ih.1]
          constructor
          · rintro ⟨kv, hmem, hp⟩
            exact ⟨kv, List.mem_cons_of_mem _ hmem, hp⟩
          · rintro ⟨kv, hmem, hp⟩
            rcases List.mem_cons.mp hmem with h | h
            · subst h
              rcases hp with h | h
              · rw [hs'] at h
                cases h
              · rw [hx'] at h
                cases h
            · exact ⟨kv, h, hp⟩
        · intro h
          rw [hcheck]
          exact ih.2 (fun kv hm => h kv (List.mem_cons_of_mem _ hm))

/-- C1 witness: a one-field form matching `sql_injection` is rejected,
and a form whose only field is clean is allowed with no log. -/
theorem gate_rejects_iff_witness :
    (check_security ("192.0.2.1".toList)
        [("user_input".toList, "a--b".toList)]).1 ≠ Outcome.allowed ∧
    check_security ("192.0.2.1".toList)
        [("user_input".toList, "hi".toList)] = (Outcome.allowed, []) :=
  ⟨(gate_rejects_iff_some_field_matches ("192.0.2.1".toList)
      [("user_input".toList, "a--b".toList)]).1.mpr
      ⟨("user_input".toList, "a--b".toList), by simp, Or.inl (by decide)⟩,
   (gate_rejects_iff_some_field_matches ("192.0.2.1".toList)
      [("user_input".toList, "hi".toList)]).2
      (by
        intro kv hm
        rcases List.mem_cons.mp hm with h | h
        · subst h
          exact ⟨by decide, by decide⟩
        · cases h)⟩

/-- C7: the gate scans fields in order, checks `sql_injection` before
`xss` on each field, and stops at the first match with a 400 rejection
naming the matched class and a log record carrying the client address,
the class and the offending value — independent of the remaining fields.
When both classes match the same field, the reported class is
`sql_injection`. -/
theorem gate_first_match_short_circuit (addr : List Char)
    (pre : List (List Char × List Char)) (k v : List Char)
    (rest : List (List Char × List Char))
    (hpre : ∀ kv ∈ pre, detect_sql_injection kv.2 = false ∧ detect_xss kv.2 = false) :
    (detect_sql_injection v = true →
      check_security addr (pre ++ (k, v) :: rest) =
        (Outcome.rejected 400 AttackClass.sqlInjection v,
         [{ client := addr, cls := AttackClass.sqlInjection, value := v }])) ∧
    (detect_sql_injection v = false → detect_xss v = true →
      check_security addr (pre ++ (k, v) :: rest) =
        (Outcome.rejected 400 AttackClass.xss v,
         [{ client := addr, cls := AttackClass.xss, value := v }])) := by
  induction pre with
  | nil =>
    constructor
    · intro hs
      simp [check_security, hs]
    · intro hs hx
      simp [check_security, hs, hx]
  | cons kv0 pre' ih =>
    obtain ⟨k0, v0⟩ := kv0
    have h0 := hpre (k0, v0) (by simp)
    have hstep : check_security addr (((k0, v0) :: pre') ++ (k, v) :: rest) =
        check_security addr (pre' ++ (k, v) :: rest) := by
      simp [check_security, h0.1, h0.2]
    rw [hstep]
    exact ih (fun kv hm => hpre kv (List.mem_cons_of_mem _ hm))

/-- C7 witness: a field value matching both classes is rejected as
`sql_injection` (the first class in the configured order), with arbitrary
further fields never scanned. -/
theorem gate_short_circuit_witness :
    detect_sql_injection ("select<script>a</script>".toList) = true ∧
    detect_xss ("select<script>a</script>".toList) = true ∧
    check_security ("198.51.100.4".toList)
        [("user_input".toList, "select<script>a</script>".toList)] =
      (Outcome.rejected 400 AttackClass.sqlInjection ("select<script>a</script>".toList),
       [{ client := ("198.51.100.4".toList), cls := AttackClass.sqlInjection,
          value := ("select<script>a</script>".toList) }]) :=
  ⟨by decide, by decide,
   (gate_first_match_short_circuit ("198.51.100.4".toList) []
     ("user_input".toList) ("select<script>a</script>".toList) [] (by decide)).1
     (by decide)⟩

/-- The limiter's verdicts depend only on request timestamps, never on
request content. -/
theorem rateRun_content_blind (reqs : List (Nat × List Char)) :
    ∀ (past : List Nat) (g : Nat → List Char),
      (rateRun past (reqs.map (fun r => (r.1, g r.1)))).map (fun q => q.2) =
        (rateRun past reqs).map (fun q => q.2) := by
  induction reqs with
  | nil => intro past g; rfl
  | cons r rest ih =>
    intro past g
    simp only [List.map_cons, rateRun, List.map]
    rw [ih (past ++ [r.1]) g]

/-- Core quota invariant: running requests (in nondecreasing time order)
through the limiter, at most `5 - min 5 (past hits in the window)` of the
new requests falling in any fixed 60-second window `[w, w+60)` are allowed. -/
theorem rateRun_window_bound :
    ∀ (reqs : List (Nat × List Char)) (past : List Nat) (w : Nat),
      (∀ p ∈ past, ∀ r ∈ reqs, p ≤ r.1) →
      List.Pairwise (fun a b => a.1 ≤ b.1) reqs →
      allowedInWindow (rateRun past reqs) w + min 5 (past.countP (inWindow w)) ≤ 5 := by
  intro reqs
  induction reqs with
  | nil =>
    intro past w _ _
    simp only [rateRun, allowedInWindow, List.countP_nil]
    omega
  | cons r rest ih =>
    intro past w hpast hpair
    obtain ⟨hhead, hpair'⟩ := List.pairwise_cons.mp hpair
    have hpast' : ∀ p ∈ past ++ [r.1], ∀ r' ∈ rest, p ≤ r'.1 := by
      intro p hp r' hr'
      rcases List.mem_append.mp hp with h | h
      · exact hpast p h r' (List.mem_cons_of_mem _ hr')
      · have hpr : p = r.1 := by simpa using h
        subst hpr
        exact hhead r' hr'
    have ihx := ih (past ++ [r.1]) w hpast' hpair'
    rw [List.countP_append] at ihx
    unfold allowedInWindow at ihx
    cases hok : rateLimitOk past r.1 with
    | true =>
      have hrun : rateRun past (r :: rest) =
          (r, RateVerdict.allowed) :: rateRun (past ++ [r.1]) rest := by
        simp [rateRun, hok]
      rw [hrun]
      unfold allowedInWindow
      rw [List.countP_cons]
      have hhead1 : inWindowAllowed w (r, RateVerdict.allowed) = inWindow w r.1 := by
        simp [inWindowAllowed]
      rw [hhead1]
      cases hin : inWindow w r.1 with
      | true =>
        have hin' : w ≤ r.1 ∧ r.1 < w + 60 := by simpa [inWindow] using hin
        have hsub : past.countP (inWindow w) ≤ past.countP (recentOf r.1) := by
          apply List.countP_mono_left
          intro p hp hc
          have hc' : w ≤ p ∧ p < w + 60 := by simpa [inWindow] using hc
          have h3 : p ≤ r.1 := hpast p hp r (by simp)
          simp only [recentOf, Bool.and_eq_true, decide_eq_true_eq]
          exact ⟨h3, by omega⟩
        have hok5 : past.countP (recentOf r.1) < 5 := by
          simpa [rateLimitOk] using hok
        have hcnt1 : List.countP (inWindow w) [r.1] = 1 := by
          simp [List.countP_cons, hin]
        rw [hcnt1] at ihx
        rw [if_pos rfl]
        omega
      | false =>
        have hcnt0 : List.countP (inWindow w) [r.1] = 0 := by
          simp [List.countP_cons, hin]
        rw [hcnt0] at ihx
        rw [if_neg (by decide)]
        omega
    | false =>
      have hrun : rateRun past (r :: rest) =
          (r, RateVerdict.quotaExceeded) :: rateRun (past ++ [r.1]) rest := by
        simp [rateRun, hok]
      rw [hrun]
      unfold allowedInWindow
      rw [List.countP_cons]
      have hhead0 : inWindowAllowed w (r, RateVerdict.quotaExceeded) = false := by
        simp [inWindowAllowed]
      rw [hhead0, if_neg (by decide)]
      have hcnt1 : List.countP (inWindow w) [r.1] ≤ 1 := by
        rw [List.countP_cons, List.countP_nil]
        split <;> omega
      omega

/-- C8: per client, the rolling-window limiter admits at most 5 requests
in any 60-second window; its verdicts ignore request content entirely;
and a request rejected for quota carries HTTP status 429. -/
theorem rate_limit_quota (reqs : List (Nat × List Char)) (w : Nat)
    (hsorted : List.Pairwise (fun a b => a.1 ≤ b.1) reqs) :
    allowedInWindow (rateRun [] reqs) w ≤ 5 ∧
    (∀ g : Nat → List Char,
      (rateRun [] (reqs.map (fun r => (r.1, g r.1)))).map (fun q => q.2) =
        (rateRun [] reqs).map (fun q => q.2)) ∧
    (∀ q ∈ rateRun [] reqs, q.2 = RateVerdict.quotaExceeded →
      verdictStatus q.2 = some 429) := by
  refine ⟨?_, fun g => rateRun_content_blind reqs [] g, ?_⟩
  · have h := rateRun_window_bound reqs [] w (by intro p hp; cases hp) hsorted
    simpa using h
  · intro q _ hq
    rw [hq]
    rfl

/-- The spec's six-request example: six requests from one client inside a
single 60-second span, contents arbitrary (the sixth even benign). -/
def sixReqs : List (Nat × List Char) :=
  [(0, "a".toList), (10, "b".toList), (20, "c".toList),
   (30, "d".toList), (40, "e".toList), (50, "hello".toList)]

/-- C8 witness: of six requests within 60 seconds the first five are
allowed and the sixth is rejected with `quotaExceeded` / HTTP 429, and
the window bound instantiates at `w = 0`. -/
theorem rate_limit_quota_witness :
    (rateRun [] sixReqs).map (fun q => q.2) =
      [RateVerdict.allowed, RateVerdict.allowed, RateVerdict.allowed,
       RateVerdict.allowed, RateVerdict.allowed, RateVerdict.quotaExceeded] ∧
    verdictStatus RateVerdict.quotaExceeded = some 429 ∧
    allowedInWindow (rateRun [] sixReqs) 0 ≤ 5 :=
  ⟨by decide, by decide, (rate_limit_quota sixReqs 0 (by decide)).1⟩

/-- C4 counterexample: a string containing a well-formed
`<script>...</script>` pair whose body contains a newline is NOT matched
by `detect_xss`, because `.` in `XSS_PATTERN` does not match `'\n'`
(no `re.DOTALL`). -/
theorem xss_newline_body_refuted :
    containsSeq ("<script>".toList) ("<script>a".toList ++ '\n' :: "b</script>".toList) = true ∧
    containsSeq ("</script>".toList) ("<script>a".toList ++ '\n' :: "b</script>".toList) = true ∧
    detect_xss ("<script>a".toList ++ '\n' :: "b</script>".toList) = false := by decide

/-- C4 amended: `detect_xss` returns true on every string containing an
opening `<script>` tag and a closing `</script>` tag (each in any casing)
whose body contains no newline. -/
theorem xss_sameline_pair_detected (a body b w1 w2 : List Char)
    (hw1 : matchCI ("script".toList) w1 = true) (hl1 : w1.length = 6)
    (hw2 : matchCI ("script".toList) w2 = true) (hl2 : w2.length = 6)
    (hnl : ∀ c ∈ body, c ≠ '\n') :
    detect_xss (a ++ '<' :: (w1 ++ '>' :: (body ++ '<' :: '/' :: (w2 ++ '>' :: b)))) = true := by
  set s := a ++ '<' :: (w1 ++ '>' :: (body ++ '<' :: '/' :: (w2 ++ '>' :: b))) with hs
  have hslen : s.length = a.length + body.length + b.length + 17 := by
    rw [hs]
    simp only [List.length_append, List.length_cons, hl1, hl2]
    omega
  have hopen : occursCIAt openTag s a.length = true := by
    unfold occursCIAt
    have hd : s.drop a.length =
        '<' :: (w1 ++ '>' :: (body ++ '<' :: '/' :: (w2 ++ '>' :: b))) := by
      rw [hs]
      have h0 := drop_append_len a ('<' :: (w1 ++ '>' :: (body ++ '<' :: '/' :: (w2 ++ '>' :: b)))) 0
      simp only [Nat.add_zero, List.drop_zero] at h0
      exact h0
    rw [hd, (rfl : openTag = '<' :: "script".toList)]
    simp only [matchCI, Bool.and_eq_true]
    exact ⟨by decide, matchCI_append_right _ w1 _ hw1⟩
  have hA1len : (a ++ '<' :: w1).length = a.length + 7 := by
    simp only [List.length_append, List.length_cons, hl1]
  have hA1 : s = (a ++ '<' :: w1) ++ '>' :: (body ++ '<' :: '/' :: (w2 ++ '>' :: b)) := by
    rw [hs]
    simp [List.append_assoc]
  have hgt : s.getD (a.length + 7) ' ' = '>' := by
    rw [hA1, show a.length + 7 = (a ++ '<' :: w1).length + 0 from by rw [hA1len]]
    rw [getD_append_len]
    rfl
  have hBlen : ((a ++ '<' :: w1) ++ ['>']).length = a.length + 8 := by
    simp only [List.length_append, List.length_cons, hl1, List.length_nil]
  have hB : s = ((a ++ '<' :: w1) ++ ['>']) ++ (body ++ '<' :: '/' :: (w2 ++ '>' :: b)) := by
    rw [hs]
    simp [List.append_assoc]
  have hA2len : ((a ++ '<' :: w1) ++ '>' :: body).length = a.length + 8 + body.length := by
    simp only [List.length_append, List.length_cons, hl1]
    omega
  have hA2 : s = ((a ++ '<' :: w1) ++ '>' :: body) ++ ('<' :: '/' :: (w2 ++ '>' :: b)) := by
    rw [hs]
    simp [List.append_assoc]
  have hocc : occursCIAt closeTag s (a.length + 8 + body.length) = true := by
    unfold occursCIAt
    rw [hA2, show a.length + 8 + body.length =
        ((a ++ '<' :: w1) ++ '>' :: body).length + 0 from by simp only [hA2len, Nat.add_zero]]
    rw [drop_append_len, List.drop_zero]
    rw [(rfl : closeTag = '<' :: '/' :: ("script".toList ++ ['>']))]
    simp only [matchCI, Bool.and_eq_true]
    refine ⟨by decide, by decide, ?_⟩
    exact matchCI_append2 _ _ w2 ('>' :: b) hw2 (by rw [hl2]; rfl) (by rfl)
  have hnl' : ∀ t, a.length + 8 ≤ t → t ≤ a.length + 8 + body.length →
      ¬s.getD t ' ' = '\n' := by
    intro t h1 h2 hcontra
    rw [hB, show t = ((a ++ '<' :: w1) ++ ['>']).length + (t - (a.length + 8)) from by
        rw [hBlen]; omega] at hcontra
    rw [getD_append_len] at hcontra
    rcases Nat.lt_or_ge (t - (a.length + 8)) body.length with hlt | hge
    · rw [getD_append_lt _ _ _ _ hlt] at hcontra
      exact hnl _ (getD_mem body (t - (a.length + 8)) hlt ' ') hcontra
    · have hje : t - (a.length + 8) = body.length := by omega
      rw [hje, show body.length = body.length + 0 from rfl, getD_append_len] at hcontra
      rw [List.getD_cons_zero] at hcontra
      exact absurd hcontra (by decide)
  have hfrom : (xssFrom s a.length).isSome = true := by
    unfold xssFrom
    rw [if_pos hopen, findGtNoNl_here s (a.length + 7) (by omega) hgt]
    show (findCloseNoNl s (a.length + 7 + 1)).isSome = true
    obtain ⟨e, he⟩ := findCloseNoNl_isSome s (a.length + 8) (a.length + 8 + body.length)
      (by omega) (by omega) hocc hnl'
    rw [show a.length + 7 + 1 = a.length + 8 from rfl, he]
    rfl
  unfold detect_xss xssMatchSpan
  exact findSome?_isSome_of_mem _ a.length _ (List.mem_range.mpr (by omega))
    (by
      cases hx : xssFrom s a.length with
      | none => rw [hx] at hfrom; simp at hfrom
      | some e => rfl)

/-- C4 witness: the spec's example `"<SCRIPT>alert(1)</SCRIPT>"`. -/
theorem xss_sameline_pair_witness :
    detect_xss ("<SCRIPT>alert(1)</SCRIPT>".toList) = true :=
  xss_sameline_pair_detected [] ("alert(1)".toList) [] ("SCRIPT".toList) ("SCRIPT".toList)
    (by decide) (by decide) (by decide) (by decide) (by decide)

/-- C3 counterexample: on `"<script>a</script>b</script>"` the search
returns the lazy span `(0, 18)` — ending at the FIRST `</script>` — while
the spec's claimed greedy span (first `<script` to last `</script>`)
would be `(0, 28)`.  The spec's description of the span is refuted. -/
theorem xss_greedy_span_refuted :
    xssMatchSpan ("<script>a</script>b</script>".toList) = some (0, 18) ∧
    xssGreedySpanSpec ("<script>a</script>b</script>".toList) = some (0, 28) ∧
    xssMatchSpan ("<script>a</script>b</script>".toList) ≠
      xssGreedySpanSpec ("<script>a</script>b</script>".toList) := by decide

/-- C3 amended: the xss pattern's quantifiers are lazy, so on an input
`<script>` ++ x ++ `</script>` ++ y ++ `</script>` (x newline-free and
containing no `<`) the matched span runs from the first `<script` to the
FIRST following `</script>` — end position `17 + |x|` — regardless of the
later closing tag; in particular one opening tag followed later on the
same line by an unrelated closing tag still matches. -/
theorem xss_span_ends_at_first_close (x y : List Char)
    (hnlx : ∀ c ∈ x, c ≠ '\n') (hltx : ∀ c ∈ x, c ≠ '<') :
    xssMatchSpan ("<script>".toList ++ x ++ "</script>".toList ++ y ++ "</script>".toList) =
      some (0, 17 + x.length) := by
  simp only [List.append_assoc]
  set s := "<script>".toList ++ (x ++ ("</script>".toList ++ (y ++ "</script>".toList))) with hs
  have e8 : ("<script>".toList).length = 8 := rfl
  have e9 : ("</script>".toList).length = 9 := rfl
  have hslen : s.length = 26 + x.length + y.length := by
    rw [hs]
    simp only [List.length_append, e8, e9]
    omega
  have hopen : occursCIAt openTag s 0 = true := by
    unfold occursCIAt
    rw [List.drop_zero, hs]
    exact matchCI_append_right _ ("<script>".toList) _ (by decide)
  have hgt : s.getD 7 ' ' = '>' := by
    rw [hs, getD_append_lt _ _ _ _ (by decide : (7 : Nat) < ("<script>".toList).length)]
    decide
  have h7 : findGtNoNl s 7 = some 7 := findGtNoNl_here s 7 (by omega) hgt
  have hlen2 : ("<script>".toList ++ x).length = 8 + x.length := by
    simp only [List.length_append, e8]
  have hs2 : s = ("<script>".toList ++ x) ++ ("</script>".toList ++ (y ++ "</script>".toList)) := by
    rw [hs]
    simp [List.append_assoc]
  have hocc : occursCIAt closeTag s (8 + x.length) = true := by
    unfold occursCIAt
    rw [hs2, show 8 + x.length = ("<script>".toList ++ x).length + 0 from by
      simp only [hlen2, Nat.add_zero]]
    rw [drop_append_len, List.drop_zero]
    exact matchCI_append_right _ ("</script>".toList) _ (by decide)
  have hchar : ∀ t, 8 ≤ t → t < 8 + x.length → s.getD t ' ' = x.getD (t - 8) ' ' := by
    intro t h8 hlt
    rw [hs]
    conv_lhs => rw [show t = ("<script>".toList).length + (t - 8) from by rw [e8]; omega]
    rw [getD_append_len]
    rw [getD_append_lt _ _ _ _ (by omega)]
  have hbelow : ∀ t, 8 ≤ t → t < 8 + x.length →
      occursCIAt closeTag s t = false ∧ ¬s.getD t ' ' = '\n' := by
    intro t h8 hlt
    have hmem : x.getD (t - 8) ' ' ∈ x := getD_mem x (t - 8) (by omega) ' '
    constructor
    · cases hoc : occursCIAt closeTag s t with
      | false => rfl
      | true =>
        exfalso
        unfold occursCIAt at hoc
        rw [(rfl : closeTag = '<' :: ('/' :: ("script".toList ++ ['>'])))] at hoc
        obtain ⟨c, cs, hcons, hlow, _⟩ := matchCI_cons_elim hoc
        have hdropt : s.drop t = s.getD t ' ' :: s.drop (t + 1) :=
          drop_eq_getD_cons s t (by omega) ' '
        rw [hdropt] at hcons
        injection hcons with h1 _
        rw [toLower_eq_self_of_low '<' (by decide)] at hlow
        have hceq : c = '<' := eq_of_toLower_eq_low c '<' (by decide) hlow
        exact hltx _ hmem (((hchar t h8 hlt).symm.trans h1).trans hceq)
    · rw [hchar t h8 hlt]
      intro hcon
      exact hnlx _ hmem hcon
  have hclose : findCloseNoNl s 8 = some (17 + x.length) := by
    have h := findCloseNoNl_first s 8 (8 + x.length) (by omega) (by omega) hocc hbelow
    rw [h, show 8 + x.length + 9 = 17 + x.length from by omega]
  have hfrom : xssFrom s 0 = some (17 + x.length) := by
    unfold xssFrom
    rw [if_pos hopen, h7]
    show findCloseNoNl s 8 = some (17 + x.length)
    exact hclose
  unfold xssMatchSpan
  rw [List.range_succ_eq_map s.length, List.findSome?_cons]
  simp only [hfrom, Option.map_some']

/-- C3 witness: the amended statement instantiated at `x = "a"`,
`y = "b"`, giving the concrete lazy span `(0, 18)`. -/
theorem xss_span_first_close_witness :
    xssMatchSpan ("<script>a</script>b</script>".toList) = some (0, 18) :=
  xss_span_ends_at_first_close ['a'] ['b'] (by decide) (by decide)
